import Mathlib

open Real

/-! Verification of the vascop calibration core: the zenith-shift projection
stage from src/projections/zenith.py and the Matcher base class from
src/matchers/base.py, embedded over the real numbers. -/

/-- Real-number model of np.mod with a real divisor: np.mod a m is
a - m * floor (a / m). -/
noncomputable def npmod (a m : ℝ) : ℝ := a - m * ⌊a / m⌋

/-- Real-number model of np.arctan2: the argument of the complex number
x + y i, lying in the interval (-pi, pi], with arctan2 0 0 = 0 as in numpy. -/
noncomputable def arctan2 (y x : ℝ) : ℝ := Complex.arg (x + y * Complex.I)

/-- The ZenithShifter projection stage from src/projections/zenith.py,
holding its two parameters epsilon (tilt) and E (rotation). -/
structure ZenithShifter where
  epsilon : ℝ
  E : ℝ

/-- ZenithShifter.__call__ from src/projections/zenith.py: the forward
zenith-shift stage taking an idealized zenith distance u and position angle b
to a true zenith distance z and azimuth a, with the small-epsilon branch and
the final wrap of the azimuth into [0, 2 pi). -/
noncomputable def ZenithShifter.call (s : ZenithShifter) (u b : ℝ) : ℝ × ℝ :=
  if |s.epsilon| < 1e-14 then
    (u, npmod (s.E + b) (2 * π))
  else
    (Real.arccos (Real.cos u * Real.cos s.epsilon -
       Real.sin u * Real.sin s.epsilon * Real.cos b),
     npmod (s.E + arctan2 (Real.sin b * Real.sin u)
       ((Real.cos u - Real.cos s.epsilon *
           (Real.cos u * Real.cos s.epsilon -
            Real.sin u * Real.sin s.epsilon * Real.cos b)) /
         Real.sin s.epsilon)) (2 * π))

/-- ZenithShifter.invert from src/projections/zenith.py: the inverse
zenith-shift stage taking z and a back to u and b, with the small-epsilon
branch and the final wrap of the position angle into [0, 2 pi). -/
noncomputable def ZenithShifter.invert (s : ZenithShifter) (z a : ℝ) : ℝ × ℝ :=
  if |s.epsilon| < 1e-14 then
    (z, npmod (a - s.E) (2 * π))
  else
    (Real.arccos (Real.cos z * Real.cos s.epsilon +
       Real.sin z * Real.sin s.epsilon * Real.cos (a - s.E)),
     npmod (arctan2 (Real.sin (a - s.E) * Real.sin z)
       (-(Real.cos z - Real.cos s.epsilon *
           (Real.cos z * Real.cos s.epsilon +
            Real.sin z * Real.sin s.epsilon * Real.cos (a - s.E))) /
         Real.sin s.epsilon)) (2 * π))

/-- State of the Matcher base class from src/matchers/base.py. The abstract
count property is a field; location and time are opaque identifiers standing
for the external astropy location and time values; sky models the cached
result of catalogue.to_altaz_deg(location, time). Since that conversion
lives outside the provided sources, the cache is represented by the pair of
arguments it was computed from, which is exactly the information the
cache-freshness claims are about. -/
structure Matcher where
  count : ℕ
  location : ℤ
  time : ℤ
  sky : Option (ℤ × ℤ)

/-- Matcher.update from src/matchers/base.py: stores the new location and
time and changes nothing else. -/
def Matcher.update (m : Matcher) (location time : ℤ) : Matcher :=
  { m with location := location, time := time }

/-- Matcher.update_sky from src/matchers/base.py: recomputes the cached sky
coordinates from the currently stored location and time. -/
def Matcher.update_sky (m : Matcher) : Matcher :=
  { m with sky := some (m.location, m.time) }

/-- Matcher.avg_error from src/matchers/base.py: NaN (modelled as none) on an
empty array, otherwise sqrt of the sum of squared errors divided by the
matcher count. -/
noncomputable def Matcher.avg_error (m : Matcher) (errors : List ℝ) : Option ℝ :=
  if errors.length = 0 then none
  else some (Real.sqrt ((errors.map (fun e => e ^ 2)).sum / m.count))

/-- Matcher.max_error from src/matchers/base.py: NaN (modelled as none) on an
empty array, otherwise np.max over the array, the greatest element. -/
noncomputable def Matcher.max_error (m : Matcher) (errors : List ℝ) : Option ℝ :=
  if errors.length = 0 then none else errors.max?

/-- The bounds tuple passed to scipy.optimize.minimize by Matcher.minimize in
src/matchers/base.py: twelve box constraints, all components free except
component 5 (V) and component 10 (epsilon), which are bounded below by 0. -/
def Matcher.minimizeBounds : List (Option ℝ × Option ℝ) :=
  [(none, none), (none, none), (none, none), (none, none), (none, none),
   (some 0, none),
   (none, none), (none, none), (none, none), (none, none),
   (some 0, none),
   (none, none)]

/-- Modelled from the spec: a scalar satisfies one scipy box constraint when
it is at least the lower bound and at most the upper bound, whenever these
are present. -/
def satisfiesBound (c : Option ℝ × Option ℝ) (x : ℝ) : Prop :=
  (∀ lo, c.1 = some lo → lo ≤ x) ∧ (∀ hi, c.2 = some hi → x ≤ hi)

/-- Modelled from the spec: the scipy bounded Nelder-Mead minimizer (external
to this repository) returns a vector of the same length as the bounds list
whose every component satisfies its box constraint. -/
def withinBounds (bounds : List (Option ℝ × Option ℝ)) (x : List ℝ) : Prop :=
  x.length = bounds.length ∧
  ∀ i : ℕ, ∀ h1 : i < bounds.length, ∀ h2 : i < x.length,
    satisfiesBound (bounds.get ⟨i, h1⟩) (x.get ⟨i, h2⟩)

theorem npmod_nonneg (a : ℝ) {m : ℝ} (hm : 0 < m) : 0 ≤ npmod a m := by
  have h := Int.floor_le (a / m)
  have h2 : m * (⌊a / m⌋ : ℝ) ≤ m * (a / m) := mul_le_mul_of_nonneg_left h hm.le
  have hma : m * (a / m) = a := by field_simp
  unfold npmod
  linarith

theorem npmod_lt (a : ℝ) {m : ℝ} (hm : 0 < m) : npmod a m < m := by
  have h := Int.lt_floor_add_one (a / m)
  have h2 : m * (a / m) < m * ((⌊a / m⌋ : ℝ) + 1) := by
    exact mul_lt_mul_of_pos_left h hm
  have hma : m * (a / m) = a := by field_simp
  unfold npmod
  nlinarith

theorem npmod_eq_self {a m : ℝ} (h0 : 0 ≤ a) (h : a < m) : npmod a m = a := by
  have hm : 0 < m := lt_of_le_of_lt h0 h
  have hfl : ⌊a / m⌋ = 0 := by
    rw [Int.floor_eq_zero_iff, Set.mem_Ico]
    exact ⟨by positivity, by rw [div_lt_one hm]; exact h⟩
  unfold npmod
  rw [hfl]
  simp

theorem npmod_sub_int (a : ℝ) {m : ℝ} (hm : m ≠ 0) (k : ℤ) :
    npmod (a - m * k) m = npmod a m := by
  unfold npmod
  have h1 : (a - m * k) / m = a / m - k := by
    field_simp
  rw [h1, Int.floor_sub_int]
  push_cast
  ring

theorem sin_arctan2_mul (y x : ℝ) :
    Real.sin (arctan2 y x) * Real.sqrt (x ^ 2 + y ^ 2) = y := by
  unfold arctan2
  by_cases h : (↑x + ↑y * Complex.I : ℂ) = 0
  · have hx : x = 0 := by simpa using congrArg Complex.re h
    have hy : y = 0 := by simpa using congrArg Complex.im h
    simp [hx, hy]
  · have habs : Complex.abs (↑x + ↑y * Complex.I) = Real.sqrt (x ^ 2 + y ^ 2) :=
      Complex.abs_add_mul_I x y
    have hr : Real.sqrt (x ^ 2 + y ^ 2) ≠ 0 := by
      rw [← habs]
      exact Complex.abs.ne_zero h
    rw [Complex.sin_arg, habs]
    have him : (↑x + ↑y * Complex.I : ℂ).im = y := by simp
    rw [him]
    field_simp

theorem cos_arctan2_mul (y x : ℝ) :
    Real.cos (arctan2 y x) * Real.sqrt (x ^ 2 + y ^ 2) = x := by
  unfold arctan2
  by_cases h : (↑x + ↑y * Complex.I : ℂ) = 0
  · have hx : x = 0 := by simpa using congrArg Complex.re h
    have hy : y = 0 := by simpa using congrArg Complex.im h
    simp [hx, hy]
  · have habs : Complex.abs (↑x + ↑y * Complex.I) = Real.sqrt (x ^ 2 + y ^ 2) :=
      Complex.abs_add_mul_I x y
    have hr : Real.sqrt (x ^ 2 + y ^ 2) ≠ 0 := by
      rw [← habs]
      exact Complex.abs.ne_zero h
    rw [Complex.cos_arg h, habs]
    have hre : (↑x + ↑y * Complex.I : ℂ).re = x := by simp
    rw [hre]
    field_simp

theorem npmod_arctan2_sin_cos {b : ℝ} (h0 : 0 ≤ b) (h2 : b < 2 * π) :
    npmod (arctan2 (Real.sin b) (Real.cos b)) (2 * π) = b := by
  unfold arctan2
  rcases le_or_lt b π with hb | hb
  · rw [Complex.ofReal_cos, Complex.ofReal_sin,
      Complex.arg_cos_add_sin_mul_I ⟨by linarith [Real.pi_pos], hb⟩]
    exact npmod_eq_self h0 h2
  · have hc : (↑(Real.cos b) + ↑(Real.sin b) * Complex.I : ℂ)
        = ↑(Real.cos (b - 2 * π)) + ↑(Real.sin (b - 2 * π)) * Complex.I := by
      rw [Real.cos_sub_two_pi, Real.sin_sub_two_pi]
    rw [hc, Complex.ofReal_cos, Complex.ofReal_sin,
      Complex.arg_cos_add_sin_mul_I ⟨by linarith, by linarith [Real.pi_pos]⟩]
    have h3 : b - 2 * π = b - (2 * π) * ((1 : ℤ) : ℝ) := by push_cast; ring
    rw [h3, npmod_sub_int _ (by positivity) 1]
    exact npmod_eq_self h0 h2

/-- C2: Matcher.avg_error returns NaN (modelled as none) on an empty errors
array, and otherwise the RMS of the residuals normalized by the matcher
count, not count_valid: the square root of the sum of squared residuals
divided by count. -/
theorem avg_error_spec (m : Matcher) (errors : List ℝ) :
    (errors = [] → m.avg_error errors = none) ∧
    (errors ≠ [] →
      m.avg_error errors =
        some (Real.sqrt ((errors.map (fun e => e ^ 2)).sum / m.count))) := by
  constructor
  · intro h
    simp [Matcher.avg_error, h]
  · intro h
    rw [Matcher.avg_error, if_neg]
    simpa [List.length_eq_zero] using h

/-- Witness for avg_error_spec: matcher count 2 and the array [3]. -/
theorem avg_error_spec_witness :
    ([(3 : ℝ)] ≠ []) ∧
    Matcher.avg_error ⟨2, 0, 0, none⟩ [(3 : ℝ)] = some (Real.sqrt (9 / 2)) := by
  refine ⟨by simp, ?_⟩
  have h := (avg_error_spec ⟨2, 0, 0, none⟩ [(3 : ℝ)]).2 (by simp)
  rw [h]
  norm_num

/-- C3 fails as stated: on the array with single entry -1 the code returns
the maximum entry -1, not the maximum absolute residual 1. -/
theorem max_error_not_abs :
    Matcher.max_error ⟨1, 0, 0, none⟩ [(-1 : ℝ)] ≠ some |(-1 : ℝ)| := by
  have h : Matcher.max_error ⟨1, 0, 0, none⟩ [(-1 : ℝ)] = some (-1) := by
    simp [Matcher.max_error]
  rw [h]
  norm_num

/-- C3 amended: max_error returns NaN (modelled as none) on an empty array,
and otherwise the maximum residual, that is the greatest entry of the array,
without taking absolute values. -/
theorem max_error_spec (m : Matcher) (errors : List ℝ) :
    (errors = [] → m.max_error errors = none) ∧
    (errors ≠ [] → ∃ v, m.max_error errors = some v ∧ v ∈ errors ∧
      ∀ e ∈ errors, e ≤ v) := by
  constructor
  · intro h
    simp [Matcher.max_error, h]
  · intro h
    cases hmax : errors.max? with
    | none => exact absurd (List.max?_eq_none_iff.mp hmax) h
    | some v =>
      refine ⟨v, ?_, ?_, ?_⟩
      · rw [Matcher.max_error, if_neg (by simpa [List.length_eq_zero] using h)]
        exact hmax
      · exact List.max?_mem (fun a b => max_choice a b) hmax
      · exact (List.max?_le_iff (fun a b c => max_le_iff) hmax).1 (le_refl v)

/-- Witness for max_error_spec: the array [-1, 2]. -/
theorem max_error_spec_witness :
    ([(-1 : ℝ), 2] ≠ []) ∧
    ∃ v, Matcher.max_error ⟨1, 0, 0, none⟩ [(-1 : ℝ), 2] = some v ∧
      v ∈ [(-1 : ℝ), 2] ∧ ∀ e ∈ [(-1 : ℝ), 2], e ≤ v :=
  ⟨by simp, (max_error_spec ⟨1, 0, 0, none⟩ [(-1 : ℝ), 2]).2 (by simp)⟩

/-- C4: for a tiny tilt, with abs epsilon below 1e-14, the forward
zenith-shift stage takes the degenerate branch and returns exactly z = u and
a = E + b wrapped into [0, 2 pi), avoiding the division by sin epsilon of the
general spherical formula. -/
theorem call_small_epsilon (eps E u b : ℝ) (h : |eps| < 1e-14) :
    ZenithShifter.call ⟨eps, E⟩ u b = (u, npmod (E + b) (2 * π)) := by
  rw [ZenithShifter.call, if_pos h]

/-- Witness for call_small_epsilon: eps = 0, E = 1, u = 2, b = 3. -/
theorem call_small_epsilon_witness :
    |(0 : ℝ)| < 1e-14 ∧ ZenithShifter.call ⟨0, 1⟩ 2 3 = (2, 4) := by
  refine ⟨by norm_num, ?_⟩
  rw [call_small_epsilon 0 1 2 3 (by norm_num)]
  have h4 : npmod (1 + 3) (2 * π) = (1 + 3 : ℝ) :=
    npmod_eq_self (by norm_num) (by nlinarith [Real.pi_gt_three])
  rw [h4]
  norm_num

/-- C5: the azimuth component returned by the forward zenith-shift stage
always lies in the half-open interval [0, 2 pi). -/
theorem call_azimuth_range (s : ZenithShifter) (u b : ℝ) :
    0 ≤ (s.call u b).2 ∧ (s.call u b).2 < 2 * π := by
  have hp : (0 : ℝ) < 2 * π := Real.two_pi_pos
  rw [ZenithShifter.call]
  split
  · exact ⟨npmod_nonneg _ hp, npmod_lt _ hp⟩
  · exact ⟨npmod_nonneg _ hp, npmod_lt _ hp⟩

/-- C8: the forward zenith-shift outputs at eps = 1e-15 and at eps = 0
coincide exactly, since both parameter values fall into the same degenerate
small-epsilon branch. -/
theorem call_epsilon_continuity (E u b : ℝ) :
    ZenithShifter.call ⟨1e-15, E⟩ u b = ZenithShifter.call ⟨0, E⟩ u b := by
  rw [ZenithShifter.call, ZenithShifter.call,
    if_pos (show |(1e-15 : ℝ)| < 1e-14 by
      rw [abs_of_nonneg (by norm_num)]
      norm_num),
    if_pos (show |(0 : ℝ)| < 1e-14 by norm_num)]

/-- C10: the position angle returned by the inverse zenith-shift stage always
lies in [0, 2 pi), so the round trip can recover the original position angle
only modulo 2 pi. -/
theorem invert_angle_range (s : ZenithShifter) (z a : ℝ) :
    0 ≤ (s.invert z a).2 ∧ (s.invert z a).2 < 2 * π := by
  have hp : (0 : ℝ) < 2 * π := Real.two_pi_pos
  rw [ZenithShifter.invert]
  split
  · exact ⟨npmod_nonneg _ hp, npmod_lt _ hp⟩
  · exact ⟨npmod_nonneg _ hp, npmod_lt _ hp⟩

/-- C7 fails as stated: with matcher count 4 and the single-element array
[1], avg_error gives sqrt(1/4) = 1/2 while max_error gives 1, so the two
are not equal and do not both equal the absolute value 1. -/
theorem single_error_avg_ne_max :
    Matcher.avg_error ⟨4, 0, 0, none⟩ [(1 : ℝ)] ≠
      Matcher.max_error ⟨4, 0, 0, none⟩ [(1 : ℝ)] := by
  have h1 : Matcher.avg_error ⟨4, 0, 0, none⟩ [(1 : ℝ)] = some (1 / 2) := by
    rw [Matcher.avg_error, if_neg (by simp)]
    congr 1
    rw [show (([(1 : ℝ)].map (fun e => e ^ 2)).sum / ((4 : ℕ) : ℝ))
        = (1 / 2 : ℝ) ^ 2 by norm_num]
    exact Real.sqrt_sq (by norm_num)
  have h2 : Matcher.max_error ⟨4, 0, 0, none⟩ [(1 : ℝ)] = some 1 := by
    simp [Matcher.max_error]
  rw [h1, h2]
  norm_num

/-- C7 amended: when the matcher count is 1 and the single residual v is
nonnegative, avg_error and max_error on [v] agree and both equal
abs v = v. -/
theorem single_error_spec (m : Matcher) (v : ℝ) (hc : m.count = 1) (hv : 0 ≤ v) :
    m.avg_error [v] = some |v| ∧ m.max_error [v] = some |v| := by
  constructor
  · rw [Matcher.avg_error, if_neg (by simp), hc]
    congr 1
    rw [show (([v].map (fun e => e ^ 2)).sum / ((1 : ℕ) : ℝ)) = v ^ 2 by simp]
    exact Real.sqrt_sq_eq_abs v
  · rw [Matcher.max_error, if_neg (by simp)]
    simp [abs_of_nonneg hv]

/-- Witness for single_error_spec: matcher count 1 and the array [2]. -/
theorem single_error_spec_witness :
    (Matcher.count ⟨1, 0, 0, none⟩ = 1 ∧ (0 : ℝ) ≤ 2) ∧
    Matcher.avg_error ⟨1, 0, 0, none⟩ [(2 : ℝ)] = some |(2 : ℝ)| ∧
    Matcher.max_error ⟨1, 0, 0, none⟩ [(2 : ℝ)] = some |(2 : ℝ)| :=
  ⟨⟨rfl, by norm_num⟩, single_error_spec ⟨1, 0, 0, none⟩ 2 rfl (by norm_num)⟩

/-- C9 fails as stated: starting from a matcher whose sky cache was computed
for location 0 and time 0, updating to location 1 and time 1 leaves the
stale cache in place, so a later query still observes horizontal coordinates
computed for the previous location and time. -/
theorem update_stale_sky :
    ¬ ((Matcher.update ⟨1, 0, 0, some (0, 0)⟩ 1 1).sky = none ∨
       (Matcher.update ⟨1, 0, 0, some (0, 0)⟩ 1 1).sky = some (1, 1)) := by
  decide

/-- C9 amended: update replaces the stored location and time and leaves the
cached horizontal coordinates untouched; the cache is refreshed only by a
subsequent update_sky call, after which it reflects the new location and
time. -/
theorem update_spec (m : Matcher) (location time : ℤ) :
    (m.update location time).location = location ∧
    (m.update location time).time = time ∧
    (m.update location time).sky = m.sky ∧
    ((m.update location time).update_sky).sky = some (location, time) :=
  ⟨rfl, rfl, rfl, rfl⟩

/-- C6: Matcher.minimize hands the Nelder-Mead minimizer exactly twelve box
constraints, free in every component except component 5 (V) and component 10
(epsilon), which are bounded below by 0; consequently any result vector
respecting these bounds, as the scipy bounded minimizer guarantees for any
number of iterations, has its V and epsilon components at least 0. -/
theorem minimize_bounds_spec :
    Matcher.minimizeBounds.length = 12 ∧
    Matcher.minimizeBounds.getD 5 (none, none) = (some 0, none) ∧
    Matcher.minimizeBounds.getD 10 (none, none) = (some 0, none) ∧
    (∀ i : ℕ, i ≠ 5 → i ≠ 10 →
      Matcher.minimizeBounds.getD i (none, none) = (none, none)) ∧
    ∀ result : List ℝ, withinBounds Matcher.minimizeBounds result →
      result.length = 12 ∧ 0 ≤ result.getD 5 0 ∧ 0 ≤ result.getD 10 0 := by
  refine ⟨rfl, rfl, rfl, ?_, ?_⟩
  · intro i h5 h10
    rcases i with _ | _ | _ | _ | _ | _ | _ | _ | _ | _ | _ | _ | n
    · rfl
    · rfl
    · rfl
    · rfl
    · rfl
    · exact absurd rfl h5
    · rfl
    · rfl
    · rfl
    · rfl
    · exact absurd rfl h10
    · rfl
    · rw [List.getD_eq_default]
      simp [Matcher.minimizeBounds]
  · intro result hwb
    obtain ⟨hlen, hcomp⟩ := hwb
    have hlen12 : result.length = 12 := by
      simpa [Matcher.minimizeBounds] using hlen
    have h5 : (5 : ℕ) < result.length := by omega
    have h10 : (10 : ℕ) < result.length := by omega
    have hc5 := hcomp 5 (by simp [Matcher.minimizeBounds]) h5
    have hc10 := hcomp 10 (by simp [Matcher.minimizeBounds]) h10
    have hg5 : result.getD 5 0 = result.get ⟨5, h5⟩ := by
      rw [List.getD_eq_getElem?_getD, List.getElem?_eq_getElem h5]
      simp [List.get_eq_getElem]
    have hg10 : result.getD 10 0 = result.get ⟨10, h10⟩ := by
      rw [List.getD_eq_getElem?_getD, List.getElem?_eq_getElem h10]
      simp [List.get_eq_getElem]
    refine ⟨hlen12, ?_, ?_⟩
    · rw [hg5]
      exact hc5.1 0 rfl
    · rw [hg10]
      exact hc10.1 0 rfl

theorem satisfiesBound_free (x : ℝ) : satisfiesBound (none, none) x :=
  ⟨fun _ hlo => Option.noConfusion hlo, fun _ hhi => Option.noConfusion hhi⟩

theorem satisfiesBound_lower {x : ℝ} (h : 0 ≤ x) : satisfiesBound (some 0, none) x := by
  constructor
  · intro lo hlo
    have h1 : (0 : ℝ) = lo := by simpa using hlo
    rw [← h1]
    exact h
  · intro hi hhi
    exact Option.noConfusion hhi

/-- Witness for minimize_bounds_spec: the all-zero twelve-vector respects the
bounds and its component 5 is at least 0. -/
theorem minimize_bounds_spec_witness :
    withinBounds Matcher.minimizeBounds (List.replicate 12 0) ∧
    0 ≤ (List.replicate 12 (0 : ℝ)).getD 5 0 := by
  have hwb : withinBounds Matcher.minimizeBounds (List.replicate 12 (0 : ℝ)) := by
    constructor
    · simp [Matcher.minimizeBounds]
    · intro i h1 h2
      have hget : (List.replicate 12 (0 : ℝ)).get ⟨i, h2⟩ = 0 := by
        rw [List.get_eq_getElem, List.getElem_replicate]
      rw [hget]
      have h12 : i < 12 := by simpa [Matcher.minimizeBounds] using h1
      interval_cases i
      · exact satisfiesBound_free 0
      · exact satisfiesBound_free 0
      · exact satisfiesBound_free 0
      · exact satisfiesBound_free 0
      · exact satisfiesBound_free 0
      · exact satisfiesBound_lower le_rfl
      · exact satisfiesBound_free 0
      · exact satisfiesBound_free 0
      · exact satisfiesBound_free 0
      · exact satisfiesBound_free 0
      · exact satisfiesBound_lower le_rfl
      · exact satisfiesBound_free 0
  exact ⟨hwb, (minimize_bounds_spec.2.2.2.2 (List.replicate 12 0) hwb).2.1⟩

theorem call_degenerate (s : ZenithShifter) (u b : ℝ) (h : |s.epsilon| < 1e-14) :
    s.call u b = (u, npmod (s.E + b) (2 * π)) := by
  rw [ZenithShifter.call, if_pos h]

theorem invert_degenerate (s : ZenithShifter) (z a : ℝ) (h : |s.epsilon| < 1e-14) :
    s.invert z a = (z, npmod (a - s.E) (2 * π)) := by
  rw [ZenithShifter.invert, if_pos h]

/-- C1 fails as stated: already for eps = 0 and E = 0 the round trip at the
input u = 0, b = 7 returns the wrapped angle 7 - 2 pi instead of 7, because
both stages wrap their angular output into [0, 2 pi). -/
theorem roundtrip_fails_large_angle :
    ZenithShifter.invert ⟨0, 0⟩ (ZenithShifter.call ⟨0, 0⟩ 0 7).1
      (ZenithShifter.call ⟨0, 0⟩ 0 7).2 ≠ ((0 : ℝ), (7 : ℝ)) := by
  have hd : |(⟨0, 0⟩ : ZenithShifter).epsilon| < 1e-14 := by norm_num
  have hcall : ZenithShifter.call ⟨0, 0⟩ 0 7 = (0, npmod 7 (2 * π)) := by
    rw [call_degenerate _ _ _ hd]
    congr 1
    show npmod (0 + 7) (2 * π) = npmod 7 (2 * π)
    norm_num
  have hval : ZenithShifter.invert ⟨0, 0⟩ (ZenithShifter.call ⟨0, 0⟩ 0 7).1
      (ZenithShifter.call ⟨0, 0⟩ 0 7).2 = (0, npmod 7 (2 * π)) := by
    rw [hcall, invert_degenerate _ _ _ hd]
    congr 1
    show npmod (npmod 7 (2 * π) - 0) (2 * π) = npmod 7 (2 * π)
    rw [sub_zero,
      npmod_eq_self (npmod_nonneg _ Real.two_pi_pos) (npmod_lt _ Real.two_pi_pos)]
  rw [hval]
  intro hcontra
  have h7 : npmod 7 (2 * π) = 7 := by
    have h := congrArg Prod.snd hcontra
    simpa using h
  have hlt := npmod_lt 7 Real.two_pi_pos
  rw [h7] at hlt
  nlinarith [Real.pi_lt_d2]

theorem call_general (s : ZenithShifter) (u b : ℝ) (h : ¬ |s.epsilon| < 1e-14) :
    s.call u b =
      (Real.arccos (Real.cos u * Real.cos s.epsilon -
         Real.sin u * Real.sin s.epsilon * Real.cos b),
       npmod (s.E + arctan2 (Real.sin b * Real.sin u)
         ((Real.cos u - Real.cos s.epsilon *
             (Real.cos u * Real.cos s.epsilon -
              Real.sin u * Real.sin s.epsilon * Real.cos b)) /
           Real.sin s.epsilon)) (2 * π)) := by
  rw [ZenithShifter.call, if_neg h]

theorem invert_general (s : ZenithShifter) (z a : ℝ) (h : ¬ |s.epsilon| < 1e-14) :
    s.invert z a =
      (Real.arccos (Real.cos z * Real.cos s.epsilon +
         Real.sin z * Real.sin s.epsilon * Real.cos (a - s.E)),
       npmod (arctan2 (Real.sin (a - s.E) * Real.sin z)
         (-(Real.cos z - Real.cos s.epsilon *
             (Real.cos z * Real.cos s.epsilon +
              Real.sin z * Real.sin s.epsilon * Real.cos (a - s.E))) /
           Real.sin s.epsilon)) (2 * π)) := by
  rw [ZenithShifter.invert, if_neg h]

/-- C1 amended: the zenith-shift round trip inverse-after-forward is exact
for every parameter pair whenever the zenith distance u lies strictly
between 0 and pi, the position angle b lies in [0, 2 pi), and the tilt
either falls in the degenerate small-epsilon branch or has nonzero sine.
At the poles, for position angles outside [0, 2 pi), or when sin eps = 0
with abs eps at least 1e-14, the round trip cannot recover b. -/
theorem zenith_roundtrip (eps E u b : ℝ)
    (hu0 : 0 < u) (hupi : u < π) (hb0 : 0 ≤ b) (hb2 : b < 2 * π)
    (heps : |eps| < 1e-14 ∨ Real.sin eps ≠ 0) :
    ZenithShifter.invert ⟨eps, E⟩ (ZenithShifter.call ⟨eps, E⟩ u b).1
      (ZenithShifter.call ⟨eps, E⟩ u b).2 = (u, b) := by
  by_cases hd : |(⟨eps, E⟩ : ZenithShifter).epsilon| < 1e-14
  · rw [call_degenerate _ _ _ hd]
    rw [invert_degenerate _ _ _ hd]
    show (u, npmod (npmod (E + b) (2 * π) - E) (2 * π)) = (u, b)
    rw [show npmod (E + b) (2 * π) - E
        = b - (2 * π) * ((⌊(E + b) / (2 * π)⌋ : ℤ) : ℝ) by
      simp only [npmod]
      ring]
    rw [npmod_sub_int b (ne_of_gt Real.two_pi_pos) _]
    rw [npmod_eq_self hb0 hb2]
  · have hse : Real.sin eps ≠ 0 := heps.resolve_left hd
    rw [call_general _ _ _ hd, invert_general _ _ _ hd]
    simp only
    have h1 : Real.sin u ^ 2 + Real.cos u ^ 2 = 1 := Real.sin_sq_add_cos_sq u
    have h2 : Real.sin eps ^ 2 + Real.cos eps ^ 2 = 1 := Real.sin_sq_add_cos_sq eps
    have h3 : Real.sin b ^ 2 + Real.cos b ^ 2 = 1 := Real.sin_sq_add_cos_sq b
    set C := Real.cos u * Real.cos eps - Real.sin u * Real.sin eps * Real.cos b
      with hC
    set S := Real.sin b * Real.sin u with hS
    have hkey : C ^ 2
        + (Real.cos u * Real.sin eps + Real.sin u * Real.cos eps * Real.cos b) ^ 2
        + S ^ 2 = 1 := by
      rw [hC, hS]
      linear_combination (Real.cos u ^ 2 + Real.sin u ^ 2 * Real.cos b ^ 2) * h2
        + Real.sin u ^ 2 * h3 + h1
    have hCle : C ^ 2 ≤ 1 := by
      nlinarith [sq_nonneg (Real.cos u * Real.sin eps
        + Real.sin u * Real.cos eps * Real.cos b), sq_nonneg S]
    have hC1 : -1 ≤ C := by nlinarith
    have hC2 : C ≤ 1 := by nlinarith
    have hcosz : Real.cos (Real.arccos C) = C := Real.cos_arccos hC1 hC2
    have hN : (Real.cos u - Real.cos eps * C) / Real.sin eps
        = Real.cos u * Real.sin eps + Real.sin u * Real.cos eps * Real.cos b := by
      rw [hC, div_eq_iff hse]
      linear_combination (-(Real.cos u)) * h2
    rw [hN]
    set N := Real.cos u * Real.sin eps + Real.sin u * Real.cos eps * Real.cos b
      with hNdef
    have h1mC : 1 - C ^ 2 = N ^ 2 + S ^ 2 := by
      linarith
    have hsinz : Real.sin (Real.arccos C) = Real.sqrt (N ^ 2 + S ^ 2) := by
      rw [Real.sin_arccos, h1mC]
    set t := arctan2 S N with ht
    set k := ⌊(E + t) / (2 * π)⌋ with hk
    have haE : npmod (E + t) (2 * π) - E = t - (2 * π) * (k : ℝ) := by
      simp only [npmod]
      rw [hk]
      ring
    have hsin_aE : Real.sin (npmod (E + t) (2 * π) - E) = Real.sin t := by
      rw [haE, show t - (2 * π) * (k : ℝ) = t - (k : ℝ) * (2 * π) by ring,
        Real.sin_sub_int_mul_two_pi]
    have hcos_aE : Real.cos (npmod (E + t) (2 * π) - E) = Real.cos t := by
      rw [haE, show t - (2 * π) * (k : ℝ) = t - (k : ℝ) * (2 * π) by ring,
        Real.cos_sub_int_mul_two_pi]
    have hsz_cos : Real.sin (Real.arccos C) * Real.cos t = N := by
      rw [hsinz, ht, mul_comm]
      exact cos_arctan2_mul S N
    have hsz_sin : Real.sin (Real.arccos C) * Real.sin t = S := by
      rw [hsinz, ht, mul_comm]
      exact sin_arctan2_mul S N
    have hcu : Real.cos (Real.arccos C) * Real.cos eps
        + Real.sin (Real.arccos C) * Real.sin eps * Real.cos (npmod (E + t) (2 * π) - E)
        = Real.cos u := by
      rw [hcos_aE, hcosz]
      rw [show C * Real.cos eps
            + Real.sin (Real.arccos C) * Real.sin eps * Real.cos t
          = C * Real.cos eps
            + Real.sin eps * (Real.sin (Real.arccos C) * Real.cos t) by ring]
      rw [hsz_cos, hC, hNdef]
      linear_combination Real.cos u * h2
    rw [hcu]
    rw [Real.arccos_cos hu0.le hupi.le]
    have hsna : Real.sin (npmod (E + t) (2 * π) - E) * Real.sin (Real.arccos C)
        = S := by
      rw [hsin_aE, mul_comm]
      exact hsz_sin
    rw [hsna]
    rw [hcosz]
    have hcna : -(C - Real.cos eps * Real.cos u) / Real.sin eps
        = Real.sin u * Real.cos b := by
      rw [div_eq_iff hse, hC]
      ring
    rw [hcna]
    have hsu : 0 < Real.sin u := Real.sin_pos_of_pos_of_lt_pi hu0 hupi
    have harg : arctan2 S (Real.sin u * Real.cos b)
        = arctan2 (Real.sin b) (Real.cos b) := by
      rw [hS]
      unfold arctan2
      have hcol : ((Real.sin u * Real.cos b : ℝ) : ℂ)
            + ((Real.sin b * Real.sin u : ℝ) : ℂ) * Complex.I
          = ((Real.sin u : ℝ) : ℂ)
            * (((Real.cos b : ℝ) : ℂ) + ((Real.sin b : ℝ) : ℂ) * Complex.I) := by
        push_cast
        ring
      rw [hcol, Complex.arg_real_mul _ hsu]
    rw [harg]
    rw [npmod_arctan2_sin_cos hb0 hb2]

/-- Witness for zenith_roundtrip: eps = 0, E = 0, u = 1, b = 1. -/
theorem zenith_roundtrip_witness :
    ((0 : ℝ) < 1 ∧ (1 : ℝ) < π ∧ (0 : ℝ) ≤ 1 ∧ (1 : ℝ) < 2 * π ∧
      |(0 : ℝ)| < 1e-14) ∧
    ZenithShifter.invert ⟨0, 0⟩ (ZenithShifter.call ⟨0, 0⟩ 1 1).1
      (ZenithShifter.call ⟨0, 0⟩ 1 1).2 = (1, 1) := by
  have hpi : (1 : ℝ) < π := by nlinarith [Real.pi_gt_three]
  refine ⟨⟨by norm_num, hpi, by norm_num, by nlinarith [Real.pi_gt_three], by norm_num⟩, ?_⟩
  exact zenith_roundtrip 0 0 1 1 (by norm_num) hpi (by norm_num)
    (by nlinarith [Real.pi_gt_three]) (Or.inl (by norm_num))
